import Mathlib

/-!
Verification of the `waitgroup` crate (src/lib.rs): an async wait-group
built from an `Arc<Inner>` whose strong count models the number of
outstanding workers, and an `AtomicWaker` slot inside `Inner` that is
fired by `impl Drop for Inner` when the last strong reference goes away.

The shallow embedding tracks the state of the single shared allocation:
the strong count, the allocated `Inner` value (its `AtomicWaker` slot,
modelled as `Option Nat` — a waker is identified by a natural number),
the weak count, the log of wakers actually invoked, and the number of
`AtomicWaker::wake` calls (one per `Inner::drop`).  The library's
operations (`WaitGroup::new`, `worker`, `workers`, `wait`,
`WaitGroupFuture::poll`, `WaitGroupFuture::workers`) are translated
against this state; small-step relations model arbitrary interleavings
of clone/drop/register events for the temporal claims.
-/

namespace Waitgroup

/-- `struct Inner { waker: AtomicWaker }` — the waker slot holds zero or
one wake capability; wakers are identified by naturals. -/
structure Inner where
  waker : Option Nat
deriving DecidableEq, Repr

/-- State of the one shared `Arc<Inner>` allocation.  `inner = none`
means the `Inner` value has been dropped (strong count reached zero).
`fired` logs the waker ids actually invoked, in order; `wakeCalls`
counts invocations of `AtomicWaker::wake` (one per `Inner::drop`). -/
structure ArcState where
  strong : Nat
  inner : Option Inner
  weak : Nat
  fired : List Nat
  wakeCalls : Nat
deriving DecidableEq, Repr

/-- `AtomicWaker::new()` — empty slot. -/
def Inner.new : Inner := ⟨none⟩

/-- `inner.waker.register(cx.waker())` — stores the waker, replacing any
previously stored one. -/
def registerWaker (s : ArcState) (w : Nat) : ArcState :=
  { s with inner := s.inner.map fun _ => Inner.mk (some w) }

/-- `impl Drop for Inner { fn drop(&mut self) { self.waker.wake(); } }` —
`AtomicWaker::wake` takes the stored waker (if any) and invokes it. -/
def fireSlot (i : Inner) (fired : List Nat) : List Nat :=
  match i.waker with
  | some w => fired ++ [w]
  | none => fired

/-- Cloning an `Arc<Inner>` (by `WaitGroup::worker`, `Worker::clone`, or
a successful `Weak::upgrade`): increments the strong count. -/
def cloneStrong (s : ArcState) : ArcState :=
  { s with strong := s.strong + 1 }

/-- Dropping an `Arc<Inner>`: decrements the strong count; when it was
the last strong reference the `Inner` value is dropped, which runs
`Inner::drop` and hence `AtomicWaker::wake`. -/
def dropStrong (s : ArcState) : ArcState :=
  if s.strong = 1 then
    { s with
      strong := 0
      inner := none
      fired := match s.inner with
        | some i => fireSlot i s.fired
        | none => s.fired
      wakeCalls := s.wakeCalls + (if s.inner.isSome then 1 else 0) }
  else
    { s with strong := s.strong - 1 }

/-- `Arc::downgrade(&self.inner)` — creates a `Weak`, leaving the strong
count untouched. -/
def downgrade (s : ArcState) : ArcState :=
  { s with weak := s.weak + 1 }

/-- `Arc::strong_count`. -/
def Arc.strong_count (s : ArcState) : Nat := s.strong

/-- `Weak::strong_count` — the strong count, or 0 once the value has
been dropped. -/
def Weak.strong_count (s : ArcState) : Nat :=
  match s.inner with
  | some _ => s.strong
  | none => 0

/-- `WaitGroup::new()` — a fresh `Arc<Inner>` with an empty waker slot;
the group itself holds the single strong reference. -/
def WaitGroup.new : ArcState :=
  { strong := 1, inner := some Inner.new, weak := 0, fired := [], wakeCalls := 0 }

/-- `WaitGroup::worker(&self)` — `Worker(self.inner.clone())`: one more
strong reference. -/
def WaitGroup.worker (s : ArcState) : ArcState := cloneStrong s

/-- `WaitGroup::workers(&self)` — `Arc::strong_count(&self.inner) - 1`. -/
def WaitGroup.workers (s : ArcState) : Nat := Arc.strong_count s - 1

/-- `WaitGroup::wait(self)` — builds `WaitGroupFuture { inner:
Arc::downgrade(&self.inner) }`, then `self` goes out of scope and its
strong reference is dropped. -/
def WaitGroup.wait (s : ArcState) : ArcState := dropStrong (downgrade s)

/-- `WaitGroupFuture::workers(&self)` — `Weak::strong_count(&self.inner)`. -/
def WaitGroupFuture.workers (s : ArcState) : Nat := Weak.strong_count s

/-- `std::task::Poll<()>`. -/
inductive PollResult where
  | Ready
  | Pending
deriving DecidableEq, Repr

/-- `impl Future for WaitGroupFuture::poll`: `self.inner.upgrade()` —
on `Some(inner)` a temporary strong reference is held while
`inner.waker.register(cx.waker())` runs, `Poll::Pending` is produced,
and the temporary `Arc` is dropped at the end of the match arm; on
`None` the result is `Poll::Ready(())` with no other effect. -/
def WaitGroupFuture.poll (s : ArcState) (w : Nat) : PollResult × ArcState :=
  if 0 < s.strong then
    (PollResult.Pending, dropStrong (registerWaker (cloneStrong s) w))
  else
    (PollResult.Ready, s)

/-- The waker currently stored in the notification slot, if any. -/
def slotOf (s : ArcState) : Option Nat :=
  match s.inner with
  | some i => i.waker
  | none => none

/-- Spawning `k` workers in a row (`k` calls to `WaitGroup::worker`). -/
def spawnN : Nat → ArcState → ArcState
  | 0, s => s
  | k + 1, s => spawnN k (WaitGroup.worker s)

/-- Dropping `k` worker handles in a row. -/
def dropN : Nat → ArcState → ArcState
  | 0, s => s
  | k + 1, s => dropN k (dropStrong s)

/-- One atomic event on the shared allocation: cloning a strong
reference (worker spawn, worker clone, or a successful `Weak::upgrade`),
dropping a strong reference, registering a waker while a strong
reference is held (poll holds the upgraded temporary `Arc` across
`register`), or creating a weak reference.  Each strong-reference event
requires a live strong reference to act on. -/
inductive StepA : ArcState → ArcState → Prop
  | clone (s : ArcState) : 1 ≤ s.strong → StepA s (cloneStrong s)
  | drop (s : ArcState) : 1 ≤ s.strong → StepA s (dropStrong s)
  | reg (s : ArcState) (w : Nat) : 1 ≤ s.strong → StepA s (registerWaker s w)
  | wdown (s : ArcState) : StepA s (downgrade s)

/-- States reachable from a fresh `WaitGroup::new()` allocation by any
interleaving of the events above. -/
def ReachableA (s : ArcState) : Prop :=
  Relation.ReflTransGen StepA WaitGroup.new s

/-- Lifetime invariant of the allocation: the `Inner` value is live
exactly while a strong reference exists, `Inner::drop` has run at most
once, and never while a strong reference was alive. -/
def InvA (s : ArcState) : Prop :=
  (s.inner.isSome ↔ 0 < s.strong) ∧ s.wakeCalls ≤ 1 ∧
    (0 < s.strong → s.wakeCalls = 0)

/-- Handle-level view of the API: whether the `WaitGroup` object is
still live (`wait` not yet called) and how many `Worker` handles
currently exist, alongside the allocation state. -/
structure Sys where
  groupAlive : Bool
  workers : Nat
  arc : ArcState
deriving DecidableEq, Repr

/-- The public handle operations: `WaitGroup::worker` (requires the
group, `&self`), `Worker::clone` (requires a live worker), dropping a
`Worker`, and `WaitGroup::wait` (consumes the group). -/
inductive SysStep : Sys → Sys → Prop
  | spawnWorker (s : Sys) : s.groupAlive = true →
      SysStep s ⟨true, s.workers + 1, cloneStrong s.arc⟩
  | cloneWorker (s : Sys) : 1 ≤ s.workers →
      SysStep s ⟨s.groupAlive, s.workers + 1, cloneStrong s.arc⟩
  | dropWorker (s : Sys) : 1 ≤ s.workers →
      SysStep s ⟨s.groupAlive, s.workers - 1, dropStrong s.arc⟩
  | wait (s : Sys) : s.groupAlive = true →
      SysStep s ⟨false, s.workers, WaitGroup.wait s.arc⟩

/-- The state right after `WaitGroup::new()`. -/
def Sys.init : Sys := ⟨true, 0, WaitGroup.new⟩

/-- Handle states reachable from `WaitGroup::new()`. -/
def SysReachable (s : Sys) : Prop :=
  Relation.ReflTransGen SysStep Sys.init s

/-- The number of strong references the group object itself holds:
one while it is live, none once `wait` consumed it. -/
def groupRefCount : Bool → Nat
  | true => 1
  | false => 0

/-- The strong count is exactly the number of live worker handles plus
one for the group itself while the group is alive. -/
def SysInv (s : Sys) : Prop :=
  s.arc.strong = s.workers + groupRefCount s.groupAlive

/-- Interleaved drops of worker handles while poll still holds its
temporary upgraded `Arc`: each drop happens at a strong count of at
least 2 (the worker's own reference plus at least poll's temporary
one), so none of them can be the last. -/
def WorkerDrops : ArcState → ArcState → Prop :=
  Relation.ReflTransGen fun a b => 2 ≤ a.strong ∧ b = dropStrong a

/-- The micro-operations in the body of `WaitGroupFuture::poll` for the
branch where `self.inner.upgrade()` returns `Some(inner)`, in source
order: the upgrade check itself (which yields the temporary strong
reference `inner`), `inner.waker.register(cx.waker())`, the implicit
drop of the temporary `Arc` at the end of the match arm, and returning
`Poll::Pending`. -/
inductive PollAction where
  | upgradeWeak
  | storeWaker
  | dropTempArc
  | recheckCompletion
  | returnPending
  | returnReady
deriving DecidableEq, Repr

/-- Source order of the operations `WaitGroupFuture::poll` performs
when the upgrade succeeds (lib.rs, the `Some(inner)` match arm). -/
def pollSomeBranch : List PollAction :=
  [PollAction.upgradeWeak, PollAction.storeWaker, PollAction.dropTempArc,
   PollAction.returnPending]

@[simp] lemma cloneStrong_strong (s : ArcState) :
    (cloneStrong s).strong = s.strong + 1 := rfl

@[simp] lemma cloneStrong_inner (s : ArcState) :
    (cloneStrong s).inner = s.inner := rfl

@[simp] lemma cloneStrong_weak (s : ArcState) :
    (cloneStrong s).weak = s.weak := rfl

@[simp] lemma cloneStrong_fired (s : ArcState) :
    (cloneStrong s).fired = s.fired := rfl

@[simp] lemma cloneStrong_wakeCalls (s : ArcState) :
    (cloneStrong s).wakeCalls = s.wakeCalls := rfl

@[simp] lemma downgrade_strong (s : ArcState) :
    (downgrade s).strong = s.strong := rfl

@[simp] lemma downgrade_inner (s : ArcState) :
    (downgrade s).inner = s.inner := rfl

@[simp] lemma downgrade_weak (s : ArcState) :
    (downgrade s).weak = s.weak + 1 := rfl

@[simp] lemma downgrade_fired (s : ArcState) :
    (downgrade s).fired = s.fired := rfl

@[simp] lemma downgrade_wakeCalls (s : ArcState) :
    (downgrade s).wakeCalls = s.wakeCalls := rfl

@[simp] lemma registerWaker_strong (s : ArcState) (w : Nat) :
    (registerWaker s w).strong = s.strong := rfl

@[simp] lemma registerWaker_inner (s : ArcState) (w : Nat) :
    (registerWaker s w).inner = s.inner.map fun _ => Inner.mk (some w) := rfl

@[simp] lemma registerWaker_weak (s : ArcState) (w : Nat) :
    (registerWaker s w).weak = s.weak := rfl

@[simp] lemma registerWaker_fired (s : ArcState) (w : Nat) :
    (registerWaker s w).fired = s.fired := rfl

@[simp] lemma registerWaker_wakeCalls (s : ArcState) (w : Nat) :
    (registerWaker s w).wakeCalls = s.wakeCalls := rfl

lemma dropStrong_of_one {s : ArcState} (h : s.strong = 1) :
    dropStrong s =
      { s with
        strong := 0
        inner := none
        fired := match s.inner with
          | some i => fireSlot i s.fired
          | none => s.fired
        wakeCalls := s.wakeCalls + (if s.inner.isSome then 1 else 0) } := by
  simp [dropStrong, h]

lemma dropStrong_of_ne {s : ArcState} (h : ¬s.strong = 1) :
    dropStrong s = { s with strong := s.strong - 1 } := by
  simp [dropStrong, h]

@[simp] lemma dropStrong_strong (s : ArcState) :
    (dropStrong s).strong = s.strong - 1 := by
  by_cases h : s.strong = 1
  · rw [dropStrong_of_one h]; simp [h]
  · rw [dropStrong_of_ne h]

@[simp] lemma dropStrong_weak (s : ArcState) :
    (dropStrong s).weak = s.weak := by
  by_cases h : s.strong = 1
  · rw [dropStrong_of_one h]
  · rw [dropStrong_of_ne h]

@[simp] lemma groupRefCount_true : groupRefCount true = 1 := rfl

@[simp] lemma groupRefCount_false : groupRefCount false = 0 := rfl

lemma spawnN_eq (k : Nat) (s : ArcState) :
    spawnN k s = { s with strong := s.strong + k } := by
  induction k generalizing s with
  | zero => simp [spawnN]
  | succ k ih =>
      simp only [spawnN, WaitGroup.worker, cloneStrong, ih]
      congr 1
      omega

lemma dropN_of_extra (k : Nat) (s : ArcState) (h : 1 ≤ s.strong) :
    dropN k { s with strong := s.strong + k } = s := by
  induction k generalizing s with
  | zero => simp [dropN]
  | succ k ih =>
      have hne : s.strong + (k + 1) ≠ 1 := by omega
      simp only [dropN, dropStrong, hne, if_false]
      have : ({ s with strong := s.strong + (k + 1) } : ArcState).strong - 1
          = s.strong + k := by
        show s.strong + (k + 1) - 1 = s.strong + k
        omega
      simpa [this] using ih s h

lemma dropN_spawnN (k : Nat) (s : ArcState) (h : 1 ≤ s.strong) :
    dropN k (spawnN k s) = s := by
  rw [spawnN_eq]; exact dropN_of_extra k s h

lemma invA_init : InvA WaitGroup.new := by
  refine ⟨by simp [WaitGroup.new], by simp [WaitGroup.new], fun _ => rfl⟩

lemma invA_step {s s' : ArcState} (hs : InvA s) (h : StepA s s') : InvA s' := by
  obtain ⟨h1, h2, h3⟩ := hs
  cases h with
  | clone hstrong =>
      refine ⟨?_, h2, fun _ => h3 (by omega)⟩
      simp only [cloneStrong_inner, cloneStrong_strong]
      exact ⟨fun _ => by omega, fun _ => h1.mpr (by omega)⟩
  | drop hstrong =>
      by_cases hone : s.strong = 1
      · have hsome : s.inner.isSome := h1.mpr (by omega)
        have hw0 : s.wakeCalls = 0 := h3 (by omega)
        rw [dropStrong_of_one hone]
        refine ⟨by simp, ?_, fun hc => by simp at hc⟩
        simp [hsome, hw0]
      · rw [dropStrong_of_ne hone]
        refine ⟨?_, h2, fun _ => h3 (by omega)⟩
        simp only
        constructor
        · intro hsome
          have := h1.mp hsome
          omega
        · intro _
          exact h1.mpr (by omega)
  | reg w hstrong =>
      refine ⟨?_, h2, h3⟩
      simp only [registerWaker_inner, registerWaker_strong]
      cases hi : s.inner with
      | none => rw [hi] at h1; simpa using h1
      | some i => rw [hi] at h1; simpa using h1
  | wdown =>
      refine ⟨?_, h2, h3⟩
      simp only [downgrade_inner, downgrade_strong]
      exact h1

lemma reachableA_inv {s : ArcState} (h : ReachableA s) : InvA s := by
  induction h with
  | refl => exact invA_init
  | tail _ hstep ih => exact invA_step ih hstep

lemma sysInv_init : SysInv Sys.init := rfl

lemma sysInv_step {s s' : Sys} (hs : SysInv s) (h : SysStep s s') :
    SysInv s' := by
  unfold SysInv at hs ⊢
  cases h with
  | spawnWorker hg =>
      show (cloneStrong s.arc).strong = s.workers + 1 + groupRefCount true
      rw [hg] at hs
      simp only [cloneStrong_strong, groupRefCount_true] at hs ⊢
      omega
  | cloneWorker hw =>
      show (cloneStrong s.arc).strong = s.workers + 1 + groupRefCount s.groupAlive
      simp only [cloneStrong_strong]
      omega
  | dropWorker hw =>
      show (dropStrong s.arc).strong = s.workers - 1 + groupRefCount s.groupAlive
      simp only [dropStrong_strong]
      cases hgb : s.groupAlive <;> rw [hgb] at hs <;>
        simp only [groupRefCount_true, groupRefCount_false] at hs ⊢ <;> omega
  | wait hg =>
      show (WaitGroup.wait s.arc).strong = s.workers + groupRefCount false
      rw [hg] at hs
      unfold WaitGroup.wait
      simp only [dropStrong_strong, downgrade_strong, groupRefCount_true,
        groupRefCount_false] at hs ⊢
      omega

lemma sysReachable_inv {s : Sys} (h : SysReachable s) : SysInv s := by
  induction h with
  | refl => exact sysInv_init
  | tail _ hstep ih => exact sysInv_step ih hstep

lemma workerDrops_preserves {a b : ArcState} (h : WorkerDrops a b)
    (ha : 1 ≤ a.strong) :
    b.inner = a.inner ∧ b.fired = a.fired ∧ b.wakeCalls = a.wakeCalls ∧
      1 ≤ b.strong := by
  induction h with
  | refl => exact ⟨rfl, rfl, rfl, ha⟩
  | tail hab hstep ih =>
      obtain ⟨hi, hf, hw, hs⟩ := ih
      obtain ⟨h2, rfl⟩ := hstep
      rw [dropStrong_of_ne (by omega)]
      refine ⟨hi, hf, hw, ?_⟩
      show 1 ≤ _ - 1
      omega

/-- C1: `WaitGroupFuture::poll` attempts to upgrade its weak reference:
if the upgrade fails (the shared state is already torn down) it returns
`Ready` and changes nothing, and if it succeeds it registers the
caller's waker into the notification slot and returns `Pending`. -/
theorem poll_upgrade_dichotomy (s : ArcState) (w : Nat) :
    (s.strong = 0 → WaitGroupFuture.poll s w = (PollResult.Ready, s)) ∧
    (0 < s.strong → s.inner.isSome →
      (WaitGroupFuture.poll s w).1 = PollResult.Pending ∧
        slotOf (WaitGroupFuture.poll s w).2 = some w) := by
  constructor
  · intro h0
    simp [WaitGroupFuture.poll, h0]
  · intro hpos hsome
    obtain ⟨i, hi⟩ := Option.isSome_iff_exists.mp hsome
    have hne : ¬ (registerWaker (cloneStrong s) w).strong = 1 := by
      simp only [registerWaker_strong, cloneStrong_strong]; omega
    have hpoll : WaitGroupFuture.poll s w
        = (PollResult.Pending, dropStrong (registerWaker (cloneStrong s) w)) := by
      simp [WaitGroupFuture.poll, hpos]
    rw [hpoll]
    refine ⟨rfl, ?_⟩
    rw [dropStrong_of_ne hne]
    simp [slotOf, registerWaker, cloneStrong, hi]

/-- Witness for C1: a torn-down state (after `new` then `wait`) polls
`Ready` unchanged, and a live fresh group polls `Pending` with the
waker stored in the slot. -/
theorem poll_upgrade_dichotomy_witness :
    WaitGroupFuture.poll (WaitGroup.wait WaitGroup.new) 3
        = (PollResult.Ready, WaitGroup.wait WaitGroup.new) ∧
      (WaitGroupFuture.poll WaitGroup.new 5).1 = PollResult.Pending ∧
      slotOf (WaitGroupFuture.poll WaitGroup.new 5).2 = some 5 :=
  ⟨(poll_upgrade_dichotomy (WaitGroup.wait WaitGroup.new) 3).1 (by decide),
   (poll_upgrade_dichotomy WaitGroup.new 5).2 (by decide) (by decide)⟩

/-- C2: over every reachable allocation state the slot has been fired
(`Inner::drop` ran `AtomicWaker::wake`) at most once; it has never
fired while a strong reference was alive; and a step fires it exactly
when that step drops the last strong reference (count 1 → 0). -/
theorem slot_fires_once_at_zero (s s' : ArcState) (h : ReachableA s) :
    s.wakeCalls ≤ 1 ∧
    (0 < s.strong → s.wakeCalls = 0) ∧
    (StepA s s' →
      (s.wakeCalls < s'.wakeCalls ↔ s.strong = 1 ∧ s'.strong = 0)) := by
  obtain ⟨h1, h2, h3⟩ := reachableA_inv h
  refine ⟨h2, h3, ?_⟩
  intro hstep
  cases hstep with
  | clone hstrong =>
      show s.wakeCalls < s.wakeCalls ↔ s.strong = 1 ∧ s.strong + 1 = 0
      omega
  | drop hstrong =>
      by_cases hone : s.strong = 1
      · have hsome : s.inner.isSome := h1.mpr (by omega)
        rw [dropStrong_of_one hone]
        show s.wakeCalls < s.wakeCalls + (if s.inner.isSome then 1 else 0) ↔
          s.strong = 1 ∧ (0 : Nat) = 0
        rw [if_pos hsome]
        omega
      · rw [dropStrong_of_ne hone]
        show s.wakeCalls < s.wakeCalls ↔ s.strong = 1 ∧ s.strong - 1 = 0
        omega
  | reg w hstrong =>
      show s.wakeCalls < s.wakeCalls ↔ s.strong = 1 ∧ s.strong = 0
      omega
  | wdown =>
      show s.wakeCalls < s.wakeCalls ↔ s.strong = 1 ∧ s.strong = 0
      omega

/-- Witness for C2 at the initial state, with the teardown step as the
step under scrutiny. -/
theorem slot_fires_once_at_zero_witness :
    WaitGroup.new.wakeCalls ≤ 1 ∧
    (0 < WaitGroup.new.strong → WaitGroup.new.wakeCalls = 0) ∧
    (StepA WaitGroup.new (dropStrong WaitGroup.new) →
      (WaitGroup.new.wakeCalls < (dropStrong WaitGroup.new).wakeCalls ↔
        WaitGroup.new.strong = 1 ∧ (dropStrong WaitGroup.new).strong = 0)) :=
  slot_fires_once_at_zero WaitGroup.new (dropStrong WaitGroup.new)
    Relation.ReflTransGen.refl

/-- C3: `WaitGroup::wait` consumes the group and its strong reference
(the strong count drops by one) while the future it returns holds only
a weak reference (the weak count grows by one); when the group's
reference was the last one the conversion itself already tears the
state down — the waiter never keeps the strong count from reaching
zero. -/
theorem wait_consumes_strong_holds_weak (s : ArcState) (h : 1 ≤ s.strong) :
    (WaitGroup.wait s).strong = s.strong - 1 ∧
    (WaitGroup.wait s).weak = s.weak + 1 ∧
    (s.strong = 1 → (WaitGroup.wait s).inner = none) := by
  unfold WaitGroup.wait
  refine ⟨by simp, by simp, ?_⟩
  intro hone
  have hd : (downgrade s).strong = 1 := by simpa using hone
  rw [dropStrong_of_one hd]

/-- Witness for C3 at a fresh group. -/
theorem wait_consumes_strong_holds_weak_witness :
    (WaitGroup.wait WaitGroup.new).strong = WaitGroup.new.strong - 1 ∧
    (WaitGroup.wait WaitGroup.new).weak = WaitGroup.new.weak + 1 ∧
    (WaitGroup.new.strong = 1 → (WaitGroup.wait WaitGroup.new).inner = none) :=
  wait_consumes_strong_holds_weak WaitGroup.new (by decide)

/-- C4: spawning `k` workers and dropping all of them (in particular
`k = 0`: no worker ever spawned), then converting the group with
`wait`, makes the very first poll return `Ready`: the conversion
released the group's own strong reference, so the weak upgrade already
fails. -/
theorem first_poll_ready_without_workers (k w : Nat) :
    WaitGroupFuture.poll (WaitGroup.wait (dropN k (spawnN k WaitGroup.new))) w
      = (PollResult.Ready, WaitGroup.wait (dropN k (spawnN k WaitGroup.new))) := by
  rw [dropN_spawnN k WaitGroup.new (by decide)]
  have h0 : (WaitGroup.wait WaitGroup.new).strong = 0 := by decide
  simp [WaitGroupFuture.poll, h0]

/-- C5 counterexample: the successful-upgrade branch of
`WaitGroupFuture::poll` contains no re-verification of the completion
condition anywhere — in particular not between registering the waker
and returning `Pending` — contradicting the claimed
check-then-register-then-recheck shape. -/
theorem poll_has_no_recheck :
    PollAction.recheckCompletion ∉ pollSomeBranch := by decide

/-- C5 amended: when the upgrade succeeds, poll registers the caller's
waker and returns `Pending` directly, with no re-check of the
completion condition after the registration; the registered waker is
left in the slot, and missed-wakeup safety is provided by the
temporary strong reference held across the registration instead. -/
theorem poll_register_then_pending (s : ArcState) (w : Nat)
    (h : 0 < s.strong) (hi : s.inner.isSome) :
    (WaitGroupFuture.poll s w).1 = PollResult.Pending ∧
    slotOf (WaitGroupFuture.poll s w).2 = some w ∧
    PollAction.recheckCompletion ∉ pollSomeBranch := by
  obtain ⟨i, hio⟩ := Option.isSome_iff_exists.mp hi
  have hne : ¬ (registerWaker (cloneStrong s) w).strong = 1 := by
    simp only [registerWaker_strong, cloneStrong_strong]; omega
  have hpoll : WaitGroupFuture.poll s w
      = (PollResult.Pending, dropStrong (registerWaker (cloneStrong s) w)) := by
    simp [WaitGroupFuture.poll, h]
  rw [hpoll]
  refine ⟨rfl, ?_, by decide⟩
  rw [dropStrong_of_ne hne]
  simp [slotOf, registerWaker, cloneStrong, hio]

/-- Witness for the amended C5 at a fresh group. -/
theorem poll_register_then_pending_witness :
    (WaitGroupFuture.poll WaitGroup.new 9).1 = PollResult.Pending ∧
    slotOf (WaitGroupFuture.poll WaitGroup.new 9).2 = some 9 ∧
    PollAction.recheckCompletion ∉ pollSomeBranch :=
  poll_register_then_pending WaitGroup.new 9 (by decide) (by decide)

/-- C6: polling a future whose weak reference no longer resolves is
idempotent: the poll returns `Ready` and leaves the state untouched,
and a second poll returns `Ready` again on the same unchanged state. -/
theorem poll_after_done_idempotent (s : ArcState) (w w' : Nat)
    (h : s.strong = 0) :
    WaitGroupFuture.poll s w = (PollResult.Ready, s) ∧
    WaitGroupFuture.poll (WaitGroupFuture.poll s w).2 w' =
      (PollResult.Ready, s) := by
  have hfirst : WaitGroupFuture.poll s w = (PollResult.Ready, s) := by
    simp [WaitGroupFuture.poll, h]
  refine ⟨hfirst, ?_⟩
  rw [hfirst]
  simp [WaitGroupFuture.poll, h]

/-- Witness for C6 on the torn-down state after `new` then `wait`. -/
theorem poll_after_done_idempotent_witness :
    WaitGroupFuture.poll (WaitGroup.wait WaitGroup.new) 1
        = (PollResult.Ready, WaitGroup.wait WaitGroup.new) ∧
      WaitGroupFuture.poll
          (WaitGroupFuture.poll (WaitGroup.wait WaitGroup.new) 1).2 2
        = (PollResult.Ready, WaitGroup.wait WaitGroup.new) :=
  poll_after_done_idempotent (WaitGroup.wait WaitGroup.new) 1 2 (by decide)

/-- C7: on every reachable state in which the group is still live,
`WaitGroup::workers` — the strong count minus one, the group's own
reservation — reports exactly the number of live worker handles; the
value is a snapshot of the instantaneous strong count. -/
theorem workers_counts_live_workers (s : Sys) (h : SysReachable s)
    (hg : s.groupAlive = true) :
    WaitGroup.workers s.arc = s.workers := by
  have hinv := sysReachable_inv h
  unfold SysInv at hinv
  rw [hg] at hinv
  simp only [groupRefCount_true] at hinv
  unfold WaitGroup.workers Arc.strong_count
  omega

/-- Witness for C7: a group with two spawned workers reports 2. -/
theorem workers_counts_live_workers_witness :
    WaitGroup.workers (cloneStrong (cloneStrong WaitGroup.new)) = 2 := by
  have h1 : SysReachable ⟨true, 1, cloneStrong WaitGroup.new⟩ :=
    Relation.ReflTransGen.single (SysStep.spawnWorker Sys.init rfl)
  have h2 : SysReachable ⟨true, 2, cloneStrong (cloneStrong WaitGroup.new)⟩ :=
    Relation.ReflTransGen.tail h1
      (SysStep.spawnWorker ⟨true, 1, cloneStrong WaitGroup.new⟩ rfl)
  exact workers_counts_live_workers _ h2 rfl

/-- C8: `WaitGroupFuture::workers` returns `Weak::strong_count` — the
strong count observed through the weak reference at call time, with no
subtraction — and on every reachable state it is zero exactly when no
strong reference remains, including the case where the state is
already destroyed. -/
theorem future_workers_strong_count (s : ArcState) (h : ReachableA s) :
    WaitGroupFuture.workers s = Arc.strong_count s ∧
    (WaitGroupFuture.workers s = 0 ↔ s.strong = 0) := by
  obtain ⟨h1, -, -⟩ := reachableA_inv h
  have heq : WaitGroupFuture.workers s = s.strong := by
    unfold WaitGroupFuture.workers Weak.strong_count
    cases hi : s.inner with
    | some i => rfl
    | none =>
        rw [hi] at h1
        simp at h1
        show (0 : Nat) = s.strong
        omega
  exact ⟨heq, by rw [heq]⟩

/-- Witness for C8 at a fresh group (one strong reference). -/
theorem future_workers_strong_count_witness :
    WaitGroupFuture.workers WaitGroup.new = Arc.strong_count WaitGroup.new ∧
    (WaitGroupFuture.workers WaitGroup.new = 0 ↔ WaitGroup.new.strong = 0) :=
  future_workers_strong_count WaitGroup.new Relation.ReflTransGen.refl

/-- C9: a successful upgrade in poll holds a temporary strong reference
for the whole registration, so teardown cannot run in between: across
any interleaved worker drops (each at strong count at least 2, so never
the last) the allocation stays alive with the just-registered waker in
the slot; and when the temporary reference released at the end of poll
is the last one, `Inner::drop` fires exactly that waker — the waiter is
never left suspended forever despite poll performing no recheck. -/
theorem poll_temp_ref_fires_registered_waker (s s2 : ArcState) (w : Nat)
    (i : Inner) (hi : s.inner = some i) (hs : 1 ≤ s.strong)
    (hd : WorkerDrops (registerWaker (cloneStrong s) w) s2)
    (hlast : s2.strong = 1) :
    s2.inner = some (Inner.mk (some w)) ∧
    (dropStrong s2).strong = 0 ∧
    (dropStrong s2).fired = s.fired ++ [w] := by
  have hstart : 1 ≤ (registerWaker (cloneStrong s) w).strong := by
    simp only [registerWaker_strong, cloneStrong_strong]; omega
  obtain ⟨hinner, hfired, -, -⟩ := workerDrops_preserves hd hstart
  have h2 : s2.inner = some (Inner.mk (some w)) := by
    rw [hinner]
    simp [hi]
  refine ⟨h2, by simp [hlast], ?_⟩
  simp only [dropStrong_of_one hlast, h2, hfired, registerWaker_fired,
    cloneStrong_fired, fireSlot]

/-- Witness for C9: one worker besides the temporary reference drops in
between; releasing the temporary reference fires waker 7. -/
theorem poll_temp_ref_fires_registered_waker_witness :
    (dropStrong (registerWaker (cloneStrong WaitGroup.new) 7)).inner
        = some (Inner.mk (some 7)) ∧
      (dropStrong
          (dropStrong (registerWaker (cloneStrong WaitGroup.new) 7))).strong
        = 0 ∧
      (dropStrong
          (dropStrong (registerWaker (cloneStrong WaitGroup.new) 7))).fired
        = WaitGroup.new.fired ++ [7] :=
  poll_temp_ref_fires_registered_waker WaitGroup.new
    (dropStrong (registerWaker (cloneStrong WaitGroup.new) 7)) 7 Inner.new
    rfl (by decide)
    (Relation.ReflTransGen.single ⟨by decide, rfl⟩)
    (by decide)

/-- C10: on every reachable state in which the group is still live the
strong count is at least 1 (the group's own reference is only released
by `wait`), so the subtraction in `WaitGroup::workers` never
underflows: the reported count plus the group's reservation
reconstructs the full strong count. -/
theorem workers_subtraction_safe (s : Sys) (h : SysReachable s)
    (hg : s.groupAlive = true) :
    1 ≤ Arc.strong_count s.arc ∧
      WaitGroup.workers s.arc + 1 = Arc.strong_count s.arc := by
  have hinv := sysReachable_inv h
  unfold SysInv at hinv
  rw [hg] at hinv
  simp only [groupRefCount_true] at hinv
  unfold WaitGroup.workers Arc.strong_count
  omega

/-- Witness for C10: a group with one spawned worker. -/
theorem workers_subtraction_safe_witness :
    1 ≤ Arc.strong_count (cloneStrong WaitGroup.new) ∧
      WaitGroup.workers (cloneStrong WaitGroup.new) + 1
        = Arc.strong_count (cloneStrong WaitGroup.new) := by
  have h1 : SysReachable ⟨true, 1, cloneStrong WaitGroup.new⟩ :=
    Relation.ReflTransGen.single (SysStep.spawnWorker Sys.init rfl)
  exact workers_subtraction_safe _ h1 rfl

end Waitgroup
